import Mathlib

/-!
Shallow embedding of the `AwesomeNegotiator` decision engine from
`src/myagent.py` (an ANAC 2024 bilateral alternating-offers agent).

Modelling conventions:
* Python floats are idealized as exact rationals (`ℚ`); the decimal
  constants of the source (`0.975`, `0.98`, `1.01`, `0.80`, `0.01`, `0.02`)
  are their exact decimal values.
* The concession exponent `e` (source default `5.0`) is embedded as a
  natural-number exponent, so `np.power(t, e)` becomes `t ^ e` on `ℚ`.
* `Outcome` is an opaque type parameter; a utility function is a record
  with `eval`, `reserved_value` and `best`, mirroring the host interface.
* Python's stable sorts (`list.sort` / `sorted` with a key and
  `reverse=True`) are embedded as `List.insertionSort` with the relation
  "key of the left argument is at least key of the right argument",
  which is stable in the same sense.
* Mutation of the agent object becomes explicit state passing: each
  method returns its result together with the fields it may have written.
* The `assert` statements of the source become `Except String` errors.
-/

namespace MyAgent

/-- Host-side utility function interface (spec section 6): evaluation on
outcomes, a reserved value, and a best outcome. -/
structure UFun (Outcome : Type) where
  eval : Outcome → ℚ
  reserved_value : ℚ
  best : Outcome

/-- Modelled from the spec: the host's utility functions are also applied to
the optional current offer (absent on the opening round); the host library,
which is not part of this repository, maps an absent outcome to the
function's reserved value. -/
def UFun.evalOpt {Outcome : Type} (u : UFun Outcome) : Option Outcome → ℚ
  | none => u.reserved_value
  | some o => u.eval o

/-- The fields of the negotiation mechanism interface (`self.nmi`) that the
agent reads: the optional total step budget and the outcome space. -/
structure NMI (Outcome : Type) where
  n_steps : Option ℕ
  outcome_space : List Outcome

/-- Per-round snapshot handed to the agent (`SAOState`): the optional
incoming offer, relative elapsed time, and the round index. -/
structure SAOState (Outcome : Type) where
  current_offer : Option Outcome
  relative_time : ℚ
  step : ℕ

/-- The response kinds used by the agent. -/
inductive ResponseType where
  | ACCEPT_OFFER
  | REJECT_OFFER
  | END_NEGOTIATION
deriving DecidableEq, Repr

/-- A response: a response type together with an optional outcome. -/
structure SAOResponse (Outcome : Type) where
  response : ResponseType
  outcome : Option Outcome

/-- The mutable state of an `AwesomeNegotiator` instance, together with the
host-provided references it holds (`self.ufun`, `self.opponent_ufun`,
`self.nmi`). -/
structure Agent (Outcome : Type) where
  e : ℕ
  opponent_rv : ℚ
  rational_outcomes : List Outcome
  pareto_outcomes : List Outcome
  step : ℕ
  relative_time : ℚ
  previous_offer : Option Outcome
  ufun : Option (UFun Outcome)
  opponent_ufun : Option (UFun Outcome)
  nmi : NMI Outcome

/-- `AwesomeNegotiator.__init__` (src/myagent.py lines 33-43): the field
values a fresh agent starts with. -/
def Agent.init {Outcome : Type} (e : ℕ) (ufun opponent_ufun : Option (UFun Outcome))
    (nmi : NMI Outcome) : Agent Outcome :=
  ⟨e, 1, [], [], 0, 0, none, ufun, opponent_ufun, nmi⟩

/-- `aspiration_function` (src/myagent.py lines 16-19):
`(mx - rv) * (1.0 - t ** e) + rv`. -/
def aspiration_function (t mx rv : ℚ) (e : ℕ) : ℚ :=
  (mx - rv) * (1 - t ^ e) + rv

/-- `find_nearest_value_idx` (src/myagent.py lines 22-25): the index of the
first element of `array` minimizing the absolute distance to `value`
(`np.argmin` returns the first minimizing index). -/
def find_nearest_value_idx (array : List ℚ) (value : ℚ) : ℕ :=
  (List.range array.length).foldl
    (fun best i =>
      if |array.getD i 0 - value| < |array.getD best 0 - value| then i else best)
    0

/-- The Python truthiness test `self.nmi.n_steps and self.nmi.n_steps - self.step == 1`
used on lines 127 and 163: a finite nonzero step budget with exactly one
step left relative to the agent's own round counter. -/
def last_step_of_budget (n_steps : Option ℕ) (step : ℕ) : Bool :=
  match n_steps with
  | none => false
  | some n => n ≠ 0 && ((n : ℤ) - (step : ℤ) == 1)

/-- `AwesomeNegotiator.acceptance_strategy` (src/myagent.py lines 113-137),
given the present own utility function (the method asserts `self.ufun`).
Returns the accept/reject decision together with the new value of
`self.step` (the counter is incremented only on the path that compares
against the aspiration threshold). -/
def acceptance_strategy {Outcome : Type} (u : UFun Outcome) (a : Agent Outcome)
    (offer : Option Outcome) : Bool × ℕ :=
  match offer with
  | none => (false, a.step)
  | some o =>
    if last_step_of_budget a.nmi.n_steps a.step then
      (decide (u.reserved_value < u.eval o), a.step)
    else
      let threshold := aspiration_function a.relative_time 1.0 u.reserved_value a.e
      (decide (threshold < u.eval o), a.step + 1)

/-- `AwesomeNegotiator.update_partner_reserved_value` (src/myagent.py lines
198-218): after the `assert self.ufun and self.opponent_ufun`, lower the
estimate to the opponent's utility of the incoming offer when that utility
is below the current estimate and at least `0.01`. Returns the new value of
`self.opponent_rv`, or the assertion failure. -/
def update_partner_reserved_value {Outcome : Type} (a : Agent Outcome)
    (state : SAOState Outcome) : Except String ℚ :=
  match a.ufun, a.opponent_ufun with
  | some _, some opp =>
    let offer := state.current_offer
    if opp.evalOpt offer < a.opponent_rv ∧ opp.evalOpt offer ≥ 0.01 then
      .ok (opp.evalOpt offer)
    else
      .ok a.opponent_rv
  | _, _ => .error "assert self.ufun and self.opponent_ufun"

/-- Python's stable sort with a rational key and `reverse=True`
(`list.sort(key=..., reverse=True)` / `sorted(..., key=..., reverse=True)`):
stable descending order by key, embedded as insertion sort with the relation
"left key is at least right key". -/
def sort_desc_by {Outcome : Type} (key : Outcome → ℚ) (l : List Outcome) : List Outcome :=
  l.insertionSort (fun x y => key y ≤ key x)

/-- Strict Pareto domination of `x` by `y` over the utility pair
`(u, opp)`: `y` is at least as good in both coordinates and strictly better
in one (spec glossary, "Pareto frontier"). -/
def dominates {Outcome : Type} (u opp : UFun Outcome) (y x : Outcome) : Prop :=
  u.eval x ≤ u.eval y ∧ opp.eval x ≤ opp.eval y ∧
    (u.eval x < u.eval y ∨ opp.eval x < opp.eval y)

instance {Outcome : Type} (u opp : UFun Outcome) (y x : Outcome) :
    Decidable (dominates u opp y x) := by
  unfold dominates
  infer_instance

/-- Modelled from the spec: `negmas.pareto_frontier` (an import of
src/myagent.py, not part of this repository) applied to the utility pair
`(self.ufun, self.opponent_ufun)` and a candidate list; per the spec's
glossary it keeps exactly the candidates not dominated by any other
candidate, and we keep them in candidate-list order. -/
def pareto_frontier_outcomes {Outcome : Type} (u opp : UFun Outcome)
    (l : List Outcome) : List Outcome :=
  l.filter (fun x => decide (¬ ∃ y ∈ l, dominates u opp y x))

/-- `AwesomeNegotiator.on_preferences_changed` (src/myagent.py lines 45-77):
when the own utility function is absent, return unchanged; otherwise build
`rational_outcomes` (outcome space filtered by own utility above
`max(reserved_value, 0.80)`, sorted descending by own utility) and
`pareto_outcomes` (the Pareto frontier of that list, sorted descending by
own utility). The frontier computation applies the opponent utility
function, which the host must have supplied. -/
def on_preferences_changed {Outcome : Type} (a : Agent Outcome) :
    Except String (Agent Outcome) :=
  match a.ufun with
  | none => .ok a
  | some u =>
    match a.opponent_ufun with
    | none => .error "pareto_frontier applied the absent opponent_ufun"
    | some opp =>
      let rational_outcomes := sort_desc_by u.eval
        (a.nmi.outcome_space.filter
          (fun o => decide (max u.reserved_value 0.80 < u.eval o)))
      let pareto_outcomes := sort_desc_by u.eval
        (pareto_frontier_outcomes u opp rational_outcomes)
      .ok { a with rational_outcomes := rational_outcomes,
                   pareto_outcomes := pareto_outcomes }

/-- `AwesomeNegotiator.bidding_strategy` (src/myagent.py lines 139-196),
given the present own and opponent utility functions. Returns the counter
offer together with the new value of `self.previous_offer` (assigned only
when the mid-negotiation scan finds a qualifying outcome). -/
def bidding_strategy {Outcome : Type} (u opp : UFun Outcome) (a : Agent Outcome)
    (state : SAOState Outcome) : Outcome × Option Outcome :=
  let outcomes := if a.pareto_outcomes.isEmpty then a.rational_outcomes
                  else a.pareto_outcomes
  match outcomes with
  | [] => (u.best, a.previous_offer)
  | o0 :: _ =>
    if 0.975 < a.relative_time ∨ last_step_of_budget a.nmi.n_steps a.step then
      let sorted_outcomes_for_opponent_best := sort_desc_by opp.eval outcomes
      let opponent_ufun_values := sorted_outcomes_for_opponent_best.map opp.eval
      let bot_idx := find_nearest_value_idx opponent_ufun_values (a.opponent_rv + 0.02)
      let top_idx := find_nearest_value_idx opponent_ufun_values a.opponent_rv
      let offers := sort_desc_by u.eval
        ((sorted_outcomes_for_opponent_best.drop bot_idx).take (top_idx + 1 - bot_idx))
      (offers.headD o0, a.previous_offer)
    else
      let asp0 := aspiration_function state.relative_time 1.0 0.0 a.e
      let asp_level :=
        match a.previous_offer with
        | some prev =>
          if opp.eval prev < opp.evalOpt state.current_offer then asp0 * 0.98
          else asp0 * 1.01
        | none => asp0
      match outcomes.find? (fun o => decide (asp_level ≤ u.eval o)) with
      | some o => (o, some o)
      | none => (o0, a.previous_offer)

/-- `AwesomeNegotiator.__call__` (src/myagent.py lines 79-111): store the
relative time, update the opponent reserved-value estimate (whose assertion
may fail), return END_NEGOTIATION when the own utility function is absent,
otherwise accept or counter-offer. Returns the response together with the
agent state after the round. When `update_partner_reserved_value` succeeds
both utility functions are present, so the END_NEGOTIATION row of the final
match realizes the `if self.ufun is None` early return of the source. -/
def call {Outcome : Type} (a : Agent Outcome) (state : SAOState Outcome) :
    Except String (SAOResponse Outcome × Agent Outcome) :=
  let offer := state.current_offer
  let a1 : Agent Outcome := { a with relative_time := state.relative_time }
  match update_partner_reserved_value a1 state with
  | .error msg => .error msg
  | .ok rv =>
    let a2 : Agent Outcome := { a1 with opponent_rv := rv }
    match a2.ufun, a2.opponent_ufun with
    | some u, some opp =>
      let acc := acceptance_strategy u a2 offer
      let a3 : Agent Outcome := { a2 with step := acc.2 }
      if acc.1 then
        .ok (⟨.ACCEPT_OFFER, offer⟩, a3)
      else
        let bid := bidding_strategy u opp a3 state
        .ok (⟨.REJECT_OFFER, some bid.1⟩, { a3 with previous_offer := bid.2 })
    | _, _ => .ok (⟨.END_NEGOTIATION, none⟩, a2)

/-- A session: feed a sequence of round states to the agent, threading its
state; an uncaught assertion failure ends the session. -/
def run {Outcome : Type} (a : Agent Outcome) :
    List (SAOState Outcome) → List (Except String (SAOResponse Outcome))
  | [] => []
  | st :: rest =>
    match call a st with
    | .ok (r, a2) => .ok r :: run a2 rest
    | .error msg => [.error msg]

/-- A freshly initialized session: `__init__` followed by the
initialization hook `on_preferences_changed`. -/
def fresh_session {Outcome : Type} (e : ℕ) (ufun opponent_ufun : Option (UFun Outcome))
    (nmi : NMI Outcome) : Except String (Agent Outcome) :=
  on_preferences_changed (Agent.init e ufun opponent_ufun nmi)

/-! Concrete instances used to exercise the engine. -/

/-- A concrete own utility function on outcomes `0..9`: utility `n / 10`,
reserved value `0.6`, best outcome `9`. -/
def uW : UFun ℕ := ⟨fun n => (n : ℚ) / 10, 0.6, 9⟩

/-- A concrete opponent utility function: utility `1 - n / 10`, reserved
value `0.3`. -/
def oW : UFun ℕ := ⟨fun n => 1 - (n : ℚ) / 10, 0.3, 0⟩

/-- A concrete mechanism interface: budget of ten steps, outcome space
`0..9`. -/
def nmiW : NMI ℕ := ⟨some 10, [0, 1, 2, 3, 4, 5, 6, 7, 8, 9]⟩

/-! Theorems. -/

/-- Claim C2: for every `t` in `[0,1]`, every positive exponent `e`, and
every pair `mx ≥ rv`, the aspiration function
`A(t) = (mx - rv) * (1 - t^e) + rv` is non-increasing in `t`, with
`A(0) = mx` and `A(1) = rv`. -/
theorem aspiration_function_spec (mx rv : ℚ) (e : ℕ) (he : 0 < e) (hrv : rv ≤ mx) :
    (∀ t1 t2 : ℚ, 0 ≤ t1 → t1 ≤ t2 → t2 ≤ 1 →
      aspiration_function t2 mx rv e ≤ aspiration_function t1 mx rv e) ∧
    aspiration_function 0 mx rv e = mx ∧
    aspiration_function 1 mx rv e = rv := by
  refine ⟨fun t1 t2 h0 h12 _ => ?_, ?_, ?_⟩
  · have hpow : t1 ^ e ≤ t2 ^ e := pow_le_pow_left₀ h0 h12 e
    have h1 : (0 : ℚ) ≤ mx - rv := by linarith
    have h2 : (mx - rv) * (1 - t2 ^ e) ≤ (mx - rv) * (1 - t1 ^ e) :=
      mul_le_mul_of_nonneg_left (by linarith) h1
    unfold aspiration_function
    linarith
  · unfold aspiration_function
    rw [zero_pow he.ne']
    ring
  · unfold aspiration_function
    rw [one_pow]
    ring

/-- Witness for `aspiration_function_spec` at `mx = 1`, `rv = 0`, `e = 5`. -/
theorem aspiration_function_spec_witness :
    aspiration_function 1 1 0 5 ≤ aspiration_function (1/2) 1 0 5 ∧
    aspiration_function 0 1 0 5 = 1 := by
  have h := aspiration_function_spec 1 0 5 (by norm_num) (by norm_num)
  exact ⟨h.1 (1/2) 1 (by norm_num) (by norm_num) le_rfl, h.2.1⟩

/-- Claim C1: `acceptance_strategy` rejects when there is no incoming
offer; on the last round of a finite step budget it accepts iff the offer's
own utility strictly exceeds the own reserved value; on every other round
it accepts iff the offer's own utility strictly exceeds the threshold
`(1.0 - R) * (1 - t^e) + R` with `R` the own reserved value and `t` the
relative elapsed time. -/
theorem acceptance_strategy_spec {Outcome : Type} (u : UFun Outcome) (a : Agent Outcome)
    (offer : Option Outcome) :
    (offer = none → (acceptance_strategy u a offer).1 = false) ∧
    (∀ w, offer = some w → last_step_of_budget a.nmi.n_steps a.step = true →
      ((acceptance_strategy u a offer).1 = true ↔ u.reserved_value < u.eval w)) ∧
    (∀ w, offer = some w → last_step_of_budget a.nmi.n_steps a.step = false →
      ((acceptance_strategy u a offer).1 = true ↔
        (1.0 - u.reserved_value) * (1 - a.relative_time ^ a.e) + u.reserved_value <
          u.eval w)) := by
  refine ⟨fun h => by simp [acceptance_strategy, h], fun w hw hl => ?_, fun w hw hl => ?_⟩
  · subst hw
    simp [acceptance_strategy, hl]
  · subst hw
    simp [acceptance_strategy, hl, aspiration_function]

/-- Witness for `acceptance_strategy_spec`: on the last budgeted step the
offer `7` (utility `0.7`, above the reserved value `0.6`) is accepted. -/
theorem acceptance_strategy_spec_witness :
    (acceptance_strategy uW (Agent.init 5 (some uW) (some oW) ⟨some 1, []⟩) (some 7)).1 =
      true := by
  have h := (acceptance_strategy_spec uW
    (Agent.init 5 (some uW) (some oW) ⟨some 1, []⟩) (some 7)).2.1 7 rfl (by decide)
  exact h.mpr (by norm_num [uW, Agent.init])

/-- Claim C8 (amended): the round counter advances by exactly one exactly
when an incoming offer is present and it is not the last round of a finite
step budget; on the no-offer path and on the last budgeted round the
counter is left unchanged. -/
theorem acceptance_strategy_step_spec {Outcome : Type} (u : UFun Outcome)
    (a : Agent Outcome) (offer : Option Outcome) :
    (offer = none → (acceptance_strategy u a offer).2 = a.step) ∧
    (∀ w, offer = some w → last_step_of_budget a.nmi.n_steps a.step = true →
      (acceptance_strategy u a offer).2 = a.step) ∧
    (∀ w, offer = some w → last_step_of_budget a.nmi.n_steps a.step = false →
      (acceptance_strategy u a offer).2 = a.step + 1) := by
  refine ⟨fun h => by simp [acceptance_strategy, h], fun w hw hl => ?_, fun w hw hl => ?_⟩
  · subst hw
    simp [acceptance_strategy, hl]
  · subst hw
    simp [acceptance_strategy, hl]

/-- Counterexample to claim C8 as stated: on a round with no incoming
offer the round counter stays at `0` instead of advancing to `1`. -/
theorem acceptance_strategy_step_counterexample :
    (acceptance_strategy uW (Agent.init 5 (some uW) (some oW) nmiW) none).2 ≠
      (Agent.init 5 (some uW) (some oW) nmiW : Agent ℕ).step + 1 := by
  decide

/-- Witness for `acceptance_strategy_step_spec`: a mid-negotiation round
with an offer advances the counter from `0` to `1`. -/
theorem acceptance_strategy_step_spec_witness :
    (acceptance_strategy uW (Agent.init 5 (some uW) (some oW) nmiW) (some 3)).2 = 0 + 1 :=
  (acceptance_strategy_step_spec uW (Agent.init 5 (some uW) (some oW) nmiW)
    (some 3)).2.2 3 rfl (by decide)

/-- Any successful `update_partner_reserved_value` returns a value that is
at most the current estimate, and that is either the unchanged estimate or
at least `0.01`. -/
lemma update_partner_reserved_value_ok {Outcome : Type} {a : Agent Outcome}
    {st : SAOState Outcome} {r : ℚ}
    (h : update_partner_reserved_value a st = .ok r) :
    r ≤ a.opponent_rv ∧ (r = a.opponent_rv ∨ 0.01 ≤ r) := by
  rcases hu : a.ufun with _ | u <;> rcases ho : a.opponent_ufun with _ | opp <;>
    simp only [update_partner_reserved_value, hu, ho] at h
  · exact absurd h (by simp)
  · exact absurd h (by simp)
  · exact absurd h (by simp)
  · split at h
    next hc =>
      rw [Except.ok.injEq] at h
      subst h
      exact ⟨le_of_lt hc.1, Or.inr hc.2⟩
    next hc =>
      rw [Except.ok.injEq] at h
      subst h
      exact ⟨le_rfl, Or.inl rfl⟩

/-- Across one successful decision call, the opponent reserved-value
estimate never increases, and when it changes it is at least `0.01`. -/
lemma call_ok_opponent_rv {Outcome : Type} {b b2 : Agent Outcome}
    {st : SAOState Outcome} {r : SAOResponse Outcome}
    (h : call b st = .ok (r, b2)) :
    b2.opponent_rv ≤ b.opponent_rv ∧
      (b2.opponent_rv = b.opponent_rv ∨ 0.01 ≤ b2.opponent_rv) := by
  simp only [call] at h
  split at h
  · exact absurd h (by simp)
  next rv hupd =>
    have hfacts := update_partner_reserved_value_ok hupd
    split at h
    next u opp hu ho =>
      split at h <;>
        · rw [Except.ok.injEq, Prod.mk.injEq] at h
          rw [← h.2]
          exact hfacts
    next =>
      rw [Except.ok.injEq, Prod.mk.injEq] at h
      rw [← h.2]
      exact hfacts

/-- Claim C3: a call to `update_partner_reserved_value` adopts the
opponent's utility `u` of the incoming offer exactly when `u` is below the
current estimate and at least `0.01`, and otherwise leaves the estimate
unchanged; consequently, from the initial value `1.0`, the estimate is
non-increasing across decision calls and is never set below `0.01`. -/
theorem update_partner_reserved_value_spec {Outcome : Type} (u opp : UFun Outcome)
    (a : Agent Outcome) (st : SAOState Outcome) (w : Outcome)
    (hu : a.ufun = some u) (ho : a.opponent_ufun = some opp)
    (hw : st.current_offer = some w) :
    (opp.eval w < a.opponent_rv ∧ 0.01 ≤ opp.eval w →
      update_partner_reserved_value a st = .ok (opp.eval w)) ∧
    (¬ (opp.eval w < a.opponent_rv ∧ 0.01 ≤ opp.eval w) →
      update_partner_reserved_value a st = .ok a.opponent_rv) ∧
    (∀ (b b2 : Agent Outcome) (st2 : SAOState Outcome) (r2 : SAOResponse Outcome),
      call b st2 = .ok (r2, b2) →
        b2.opponent_rv ≤ b.opponent_rv ∧
          (b2.opponent_rv = b.opponent_rv ∨ 0.01 ≤ b2.opponent_rv)) ∧
    (∀ (e : ℕ) (uf opp2 : Option (UFun Outcome)) (nmi : NMI Outcome),
      (Agent.init e uf opp2 nmi).opponent_rv = 1) := by
  refine ⟨fun hc => ?_, fun hc => ?_,
    fun b b2 st2 r2 h => call_ok_opponent_rv h, fun e uf opp2 nmi => rfl⟩
  · simp only [update_partner_reserved_value, hu, ho, hw, UFun.evalOpt]
    rw [if_pos ⟨hc.1, hc.2⟩]
  · simp only [update_partner_reserved_value, hu, ho, hw, UFun.evalOpt]
    rw [if_neg (fun hcon => hc ⟨hcon.1, hcon.2⟩)]

/-- Witness for `update_partner_reserved_value_spec`: the opponent utility
of offer `7` is `0.3`, below the prior estimate `0.5` and above `0.01`, so
it is adopted. -/
theorem update_partner_reserved_value_spec_witness :
    update_partner_reserved_value
      { Agent.init 5 (some uW) (some oW) nmiW with opponent_rv := 0.5 }
      ⟨some 7, 0.5, 0⟩ = .ok (oW.eval 7) := by
  have h := (update_partner_reserved_value_spec uW oW
    { Agent.init 5 (some uW) (some oW) nmiW with opponent_rv := 0.5 }
    ⟨some 7, 0.5, 0⟩ 7 rfl rfl rfl).1
  exact h (by norm_num [oW, Agent.init])

/-- Membership is preserved by the descending sort. -/
lemma mem_sort_desc_by {Outcome : Type} (key : Outcome → ℚ) (l : List Outcome)
    (x : Outcome) : x ∈ sort_desc_by key l ↔ x ∈ l := by
  unfold sort_desc_by
  exact List.mem_insertionSort _

/-- The descending sort is a permutation of its input. -/
lemma perm_sort_desc_by {Outcome : Type} (key : Outcome → ℚ) (l : List Outcome) :
    List.Perm (sort_desc_by key l) l := by
  unfold sort_desc_by
  exact List.perm_insertionSort _ l

/-- The descending sort is sorted by non-increasing key. -/
lemma sorted_sort_desc_by {Outcome : Type} (key : Outcome → ℚ) (l : List Outcome) :
    (sort_desc_by key l).Sorted (fun x y => key y ≤ key x) := by
  haveI : IsTotal Outcome (fun x y => key y ≤ key x) := ⟨fun a b => le_total (key b) (key a)⟩
  haveI : IsTrans Outcome (fun x y => key y ≤ key x) := ⟨fun a b c h1 h2 => le_trans h2 h1⟩
  exact List.sorted_insertionSort _ l

/-- The head of a descending sort of a nonempty list is an element of the
list. -/
lemma sort_desc_by_headD_mem {Outcome : Type} (key : Outcome → ℚ) {l : List Outcome}
    (hl : l ≠ []) (d : Outcome) : (sort_desc_by key l).headD d ∈ l := by
  have hperm := perm_sort_desc_by key l
  cases hs : sort_desc_by key l with
  | nil =>
    rw [hs] at hperm
    exact absurd hperm.symm.eq_nil hl
  | cons h t =>
    have : h ∈ sort_desc_by key l := by
      rw [hs]
      exact List.mem_cons_self h t
    simpa using (mem_sort_desc_by key l h).1 this

/-- The head of a descending sort dominates every element of the list in
key value. -/
lemma sort_desc_by_headD_max {Outcome : Type} (key : Outcome → ℚ) {l : List Outcome}
    (d : Outcome) {b : Outcome} (hb : b ∈ l) :
    key b ≤ key ((sort_desc_by key l).headD d) := by
  have hsorted := sorted_sort_desc_by key l
  have hbmem : b ∈ sort_desc_by key l := (mem_sort_desc_by key l b).2 hb
  cases hs : sort_desc_by key l with
  | nil =>
    rw [hs] at hbmem
    simp at hbmem
  | cons h t =>
    rw [hs] at hbmem hsorted
    simp only [List.headD]
    rcases List.mem_cons.1 hbmem with rfl | hbt
    · exact le_rfl
    · exact List.rel_of_sorted_cons hsorted b hbt

/-- A successful decision call leaves the candidate lists and the
host-provided references untouched. -/
lemma call_ok_preserves {Outcome : Type} {b b2 : Agent Outcome} {st : SAOState Outcome}
    {r : SAOResponse Outcome} (h : call b st = .ok (r, b2)) :
    b2.rational_outcomes = b.rational_outcomes ∧
    b2.pareto_outcomes = b.pareto_outcomes ∧
    b2.e = b.e ∧ b2.ufun = b.ufun ∧ b2.opponent_ufun = b.opponent_ufun ∧
    b2.nmi = b.nmi := by
  simp only [call] at h
  split at h
  · exact absurd h (by simp)
  next rv hupd =>
    split at h
    next u opp hu ho =>
      split at h <;>
        · rw [Except.ok.injEq, Prod.mk.injEq] at h
          rw [← h.2]
          exact ⟨rfl, rfl, rfl, rfl, rfl, rfl⟩
    next =>
      rw [Except.ok.injEq, Prod.mk.injEq] at h
      rw [← h.2]
      exact ⟨rfl, rfl, rfl, rfl, rfl, rfl⟩

/-- Claim C6: after initialization with a present utility function,
`rational_outcomes` consists exactly of the outcomes of the outcome space
with own utility strictly above `max(reserved_value, 0.80)`, sorted by
non-increasing own utility; `pareto_outcomes` is a subset of
`rational_outcomes` no element of which is dominated by any element of
`rational_outcomes` in the pair (own utility, counterpart utility), also
sorted by non-increasing own utility; and no later decision call mutates
either list. -/
theorem on_preferences_changed_spec {Outcome : Type} (u opp : UFun Outcome)
    (a : Agent Outcome) (hu : a.ufun = some u) (ho : a.opponent_ufun = some opp) :
    ∃ a2, on_preferences_changed a = .ok a2 ∧
      (∀ o, o ∈ a2.rational_outcomes ↔
        o ∈ a.nmi.outcome_space ∧ max u.reserved_value 0.80 < u.eval o) ∧
      a2.rational_outcomes.Sorted (fun x y => u.eval y ≤ u.eval x) ∧
      (∀ o ∈ a2.pareto_outcomes, o ∈ a2.rational_outcomes) ∧
      (∀ x ∈ a2.pareto_outcomes, ¬ ∃ y ∈ a2.rational_outcomes, dominates u opp y x) ∧
      a2.pareto_outcomes.Sorted (fun x y => u.eval y ≤ u.eval x) ∧
      (∀ (b b2 : Agent Outcome) (st : SAOState Outcome) (r : SAOResponse Outcome),
        call b st = .ok (r, b2) →
          b2.rational_outcomes = b.rational_outcomes ∧
          b2.pareto_outcomes = b.pareto_outcomes) := by
  simp only [on_preferences_changed, hu, ho]
  refine ⟨_, rfl, ?_, ?_, ?_, ?_, ?_,
    fun b b2 st r h => ⟨(call_ok_preserves h).1, (call_ok_preserves h).2.1⟩⟩
  · intro o
    rw [mem_sort_desc_by, List.mem_filter]
    simp
  · exact sorted_sort_desc_by _ _
  · intro o hp
    rw [mem_sort_desc_by] at hp
    unfold pareto_frontier_outcomes at hp
    exact (List.mem_filter.1 hp).1
  · intro x hp
    rw [mem_sort_desc_by] at hp
    unfold pareto_frontier_outcomes at hp
    have := (List.mem_filter.1 hp).2
    simpa using this
  · exact sorted_sort_desc_by _ _

/-- Witness for `on_preferences_changed_spec` on a concrete agent. -/
theorem on_preferences_changed_spec_witness :
    ∃ a2, on_preferences_changed (Agent.init 5 (some uW) (some oW) nmiW) = .ok a2 ∧
      (9 ∈ a2.rational_outcomes ↔
        9 ∈ nmiW.outcome_space ∧ max uW.reserved_value 0.80 < uW.eval 9) := by
  obtain ⟨a2, heq, hmem, -, -, -, -, -⟩ :=
    on_preferences_changed_spec uW oW (Agent.init 5 (some uW) (some oW) nmiW) rfl rfl
  exact ⟨a2, heq, hmem 9⟩

/-- Claim C7 (amended): when the own utility function is absent at decision
time, the decision call does not return END_NEGOTIATION; it fails with the
assertion of `update_partner_reserved_value`, which runs first. -/
theorem call_missing_ufun_spec {Outcome : Type} (a : Agent Outcome)
    (st : SAOState Outcome) (h : a.ufun = none) :
    call a st = .error "assert self.ufun and self.opponent_ufun" := by
  cases ho : a.opponent_ufun <;>
    simp [call, update_partner_reserved_value, h, ho]

/-- Counterexample to claim C7 as stated: with the own utility function
absent, the concrete decision call raises the assertion failure instead of
returning an END_NEGOTIATION response. -/
theorem call_missing_ufun_counterexample :
    call (Agent.init 5 none (some oW) nmiW) ⟨some 7, 0.5, 0⟩ =
      .error "assert self.ufun and self.opponent_ufun" := by
  rfl

/-- Witness for `call_missing_ufun_spec` at a concrete opening round. -/
theorem call_missing_ufun_spec_witness :
    call (Agent.init 5 none (some oW) nmiW) ⟨none, 0.1, 0⟩ =
      .error "assert self.ufun and self.opponent_ufun" :=
  call_missing_ufun_spec (Agent.init 5 none (some oW) nmiW) ⟨none, 0.1, 0⟩ rfl

/-- Claim C4: in a non-endgame round (relative time at most `0.975` and
not exactly one budgeted round remaining), `bidding_strategy` works on the
candidate list (`pareto_outcomes` if non-empty, else `rational_outcomes`,
and with both empty it returns the own best outcome), computes the
aspiration level with `mx = 1.0` and `rv = 0`, scales it by `0.98` when a
previous own offer exists and the counterpart utility of the incoming
offer strictly exceeds that of the previous own offer and by `1.01` when a
previous own offer exists otherwise, and returns the first candidate whose
own utility reaches the adjusted level, recording it as the new previous
own offer; with no qualifying candidate it returns the first candidate. -/
theorem bidding_strategy_mid_spec {Outcome : Type} (u opp : UFun Outcome)
    (a : Agent Outcome) (st : SAOState Outcome)
    (hrt : a.relative_time ≤ 0.975)
    (hlast : last_step_of_budget a.nmi.n_steps a.step = false) :
    ((if a.pareto_outcomes.isEmpty then a.rational_outcomes else a.pareto_outcomes) = [] →
      bidding_strategy u opp a st = (u.best, a.previous_offer)) ∧
    (∀ o0 rest,
      (if a.pareto_outcomes.isEmpty then a.rational_outcomes else a.pareto_outcomes) =
        o0 :: rest →
      ∀ asp_level : ℚ,
        asp_level = (match a.previous_offer with
          | some prev =>
            if opp.eval prev < opp.evalOpt st.current_offer then
              ((1.0 - 0) * (1 - st.relative_time ^ a.e) + 0) * 0.98
            else
              ((1.0 - 0) * (1 - st.relative_time ^ a.e) + 0) * 1.01
          | none => (1.0 - 0) * (1 - st.relative_time ^ a.e) + 0) →
        (((o0 :: rest).find? (fun o => decide (asp_level ≤ u.eval o)) = none →
          bidding_strategy u opp a st = (o0, a.previous_offer)) ∧
        (∀ o, (o0 :: rest).find? (fun o2 => decide (asp_level ≤ u.eval o2)) = some o →
          bidding_strategy u opp a st = (o, some o)))) := by
  have hcond : (0.975 < a.relative_time ∨
      last_step_of_budget a.nmi.n_steps a.step = true) = False := by
    refine eq_false ?_
    rintro (h | h)
    · exact absurd hrt (not_le.2 h)
    · rw [hlast] at h
      exact Bool.false_ne_true h
  constructor
  · intro hout
    simp only [bidding_strategy, hout]
  · intro o0 rest hout asp_level heqasp
    have hasp : aspiration_function st.relative_time 1.0 0.0 a.e =
        (1.0 - 0) * (1 - st.relative_time ^ a.e) + 0 := by
      unfold aspiration_function
      norm_num
    rcases hprev : a.previous_offer with _ | prev
    · rw [hprev] at heqasp
      have heq2 : asp_level = (1.0 - 0) * (1 - st.relative_time ^ a.e) + 0 := heqasp
      constructor
      · intro hfind
        simp only [bidding_strategy, hout, hcond, if_false, hprev, hasp, ← heq2, hfind]
      · intro o hfind
        simp only [bidding_strategy, hout, hcond, if_false, hprev, hasp, ← heq2, hfind]
    · rw [hprev] at heqasp
      have heq2 : asp_level =
          if opp.eval prev < opp.evalOpt st.current_offer then
            ((1.0 - 0) * (1 - st.relative_time ^ a.e) + 0) * 0.98
          else ((1.0 - 0) * (1 - st.relative_time ^ a.e) + 0) * 1.01 := heqasp
      by_cases htft : opp.eval prev < opp.evalOpt st.current_offer
      · rw [if_pos htft] at heq2
        constructor
        · intro hfind
          simp only [bidding_strategy, hout, hcond, if_false, hprev, htft, if_true, hasp,
            ← heq2, hfind]
        · intro o hfind
          simp only [bidding_strategy, hout, hcond, if_false, hprev, htft, if_true, hasp,
            ← heq2, hfind]
      · rw [if_neg htft] at heq2
        constructor
        · intro hfind
          simp only [bidding_strategy, hout, hcond, if_false, hprev, htft, hasp,
            ← heq2, hfind]
        · intro o hfind
          simp only [bidding_strategy, hout, hcond, if_false, hprev, htft, hasp,
            ← heq2, hfind]

/-- Claim C5: in an endgame round (relative time above `0.975`, or exactly
one budgeted round remaining), with a nonempty candidate list,
`bidding_strategy` sorts the candidates descending by counterpart utility,
finds the index nearest to `opponent_rv + 0.02` and the one nearest to
`opponent_rv`, takes the inclusive slice between them, and returns an
element of that slice maximizing own utility; with an empty slice it
returns the first candidate of the base list, and `previous_offer` is left
unchanged. -/
theorem bidding_strategy_endgame_spec {Outcome : Type} (u opp : UFun Outcome)
    (a : Agent Outcome) (st : SAOState Outcome) (o0 : Outcome) (rest : List Outcome)
    (hout : (if a.pareto_outcomes.isEmpty then a.rational_outcomes
        else a.pareto_outcomes) = o0 :: rest)
    (hend : 0.975 < a.relative_time ∨ last_step_of_budget a.nmi.n_steps a.step = true) :
    ∀ band : List Outcome,
      band = ((sort_desc_by opp.eval (o0 :: rest)).drop
          (find_nearest_value_idx ((sort_desc_by opp.eval (o0 :: rest)).map opp.eval)
            (a.opponent_rv + 0.02))).take
          (find_nearest_value_idx ((sort_desc_by opp.eval (o0 :: rest)).map opp.eval)
              a.opponent_rv + 1 -
            find_nearest_value_idx ((sort_desc_by opp.eval (o0 :: rest)).map opp.eval)
              (a.opponent_rv + 0.02)) →
      ((band = [] → bidding_strategy u opp a st = (o0, a.previous_offer)) ∧
       (band ≠ [] → (bidding_strategy u opp a st).1 ∈ band ∧
         ∀ b ∈ band, u.eval b ≤ u.eval (bidding_strategy u opp a st).1) ∧
       (bidding_strategy u opp a st).2 = a.previous_offer) := by
  intro band hband
  have hred : bidding_strategy u opp a st =
      ((sort_desc_by u.eval band).headD o0, a.previous_offer) := by
    simp only [bidding_strategy, hout, hend, if_true, ← hband]
  refine ⟨fun hb => ?_, fun hb => ?_, by rw [hred]⟩
  · rw [hred, hb]
    rfl
  · rw [hred]
    exact ⟨sort_desc_by_headD_mem u.eval hb o0,
      fun b hbmem => sort_desc_by_headD_max u.eval o0 hbmem⟩

/-- Claim C10: `previous_offer` is assigned only on the mid-negotiation
path when some candidate meets the adjusted aspiration level (and then it
becomes the returned outcome); the endgame branch, the mid-negotiation
fallback to the first candidate, and the empty-candidate fallback all
leave `previous_offer` unchanged. -/
theorem bidding_strategy_previous_offer_spec {Outcome : Type} (u opp : UFun Outcome)
    (a : Agent Outcome) (st : SAOState Outcome) :
    ((bidding_strategy u opp a st).2 = a.previous_offer ∨
      (bidding_strategy u opp a st).2 = some (bidding_strategy u opp a st).1) ∧
    ((if a.pareto_outcomes.isEmpty then a.rational_outcomes else a.pareto_outcomes) = [] →
      (bidding_strategy u opp a st).2 = a.previous_offer) ∧
    (0.975 < a.relative_time ∨ last_step_of_budget a.nmi.n_steps a.step = true →
      (bidding_strategy u opp a st).2 = a.previous_offer) ∧
    (∀ o0 rest,
      (if a.pareto_outcomes.isEmpty then a.rational_outcomes else a.pareto_outcomes) =
        o0 :: rest →
      ¬ (0.975 < a.relative_time ∨ last_step_of_budget a.nmi.n_steps a.step = true) →
      ∀ asp_level : ℚ,
        asp_level = (match a.previous_offer with
          | some prev =>
            if opp.eval prev < opp.evalOpt st.current_offer then
              aspiration_function st.relative_time 1.0 0.0 a.e * 0.98
            else aspiration_function st.relative_time 1.0 0.0 a.e * 1.01
          | none => aspiration_function st.relative_time 1.0 0.0 a.e) →
        (((o0 :: rest).find? (fun o => decide (asp_level ≤ u.eval o)) = none →
          bidding_strategy u opp a st = (o0, a.previous_offer)) ∧
        (∀ o, (o0 :: rest).find? (fun o2 => decide (asp_level ≤ u.eval o2)) = some o →
          bidding_strategy u opp a st = (o, some o)))) := by
  have hmain : ∀ o0 rest,
      (if a.pareto_outcomes.isEmpty then a.rational_outcomes else a.pareto_outcomes) =
        o0 :: rest →
      ¬ (0.975 < a.relative_time ∨ last_step_of_budget a.nmi.n_steps a.step = true) →
      ∀ asp_level : ℚ,
        asp_level = (match a.previous_offer with
          | some prev =>
            if opp.eval prev < opp.evalOpt st.current_offer then
              aspiration_function st.relative_time 1.0 0.0 a.e * 0.98
            else aspiration_function st.relative_time 1.0 0.0 a.e * 1.01
          | none => aspiration_function st.relative_time 1.0 0.0 a.e) →
        (((o0 :: rest).find? (fun o => decide (asp_level ≤ u.eval o)) = none →
          bidding_strategy u opp a st = (o0, a.previous_offer)) ∧
        (∀ o, (o0 :: rest).find? (fun o2 => decide (asp_level ≤ u.eval o2)) = some o →
          bidding_strategy u opp a st = (o, some o))) := by
    intro o0 rest hout hnotend asp_level heqasp
    have hcond : (0.975 < a.relative_time ∨
        last_step_of_budget a.nmi.n_steps a.step = true) = False := eq_false hnotend
    rcases hprev : a.previous_offer with _ | prev
    · rw [hprev] at heqasp
      have heq2 : asp_level = aspiration_function st.relative_time 1.0 0.0 a.e := heqasp
      constructor
      · intro hfind
        simp only [bidding_strategy, hout, hcond, if_false, hprev, ← heq2, hfind]
      · intro o hfind
        simp only [bidding_strategy, hout, hcond, if_false, hprev, ← heq2, hfind]
    · rw [hprev] at heqasp
      have heq2 : asp_level =
          if opp.eval prev < opp.evalOpt st.current_offer then
            aspiration_function st.relative_time 1.0 0.0 a.e * 0.98
          else aspiration_function st.relative_time 1.0 0.0 a.e * 1.01 := heqasp
      by_cases htft : opp.eval prev < opp.evalOpt st.current_offer
      · rw [if_pos htft] at heq2
        constructor
        · intro hfind
          simp only [bidding_strategy, hout, hcond, if_false, hprev, htft, if_true,
            ← heq2, hfind]
        · intro o hfind
          simp only [bidding_strategy, hout, hcond, if_false, hprev, htft, if_true,
            ← heq2, hfind]
      · rw [if_neg htft] at heq2
        constructor
        · intro hfind
          simp only [bidding_strategy, hout, hcond, if_false, hprev, htft,
            ← heq2, hfind]
        · intro o hfind
          simp only [bidding_strategy, hout, hcond, if_false, hprev, htft,
            ← heq2, hfind]
  have hempty : (if a.pareto_outcomes.isEmpty then a.rational_outcomes
      else a.pareto_outcomes) = [] →
      bidding_strategy u opp a st = (u.best, a.previous_offer) := by
    intro hout
    simp only [bidding_strategy, hout]
  have hendgame : 0.975 < a.relative_time ∨
      last_step_of_budget a.nmi.n_steps a.step = true →
      (bidding_strategy u opp a st).2 = a.previous_offer := by
    intro hend
    cases hout : (if a.pareto_outcomes.isEmpty then a.rational_outcomes
        else a.pareto_outcomes) with
    | nil => rw [hempty hout]
    | cons o0 rest =>
      exact ((bidding_strategy_endgame_spec u opp a st o0 rest hout hend) _ rfl).2.2
  refine ⟨?_, fun hout => by rw [hempty hout], hendgame,
    fun o0 rest hout hnotend => hmain o0 rest hout hnotend⟩
  by_cases hend : 0.975 < a.relative_time ∨ last_step_of_budget a.nmi.n_steps a.step = true
  · exact Or.inl (hendgame hend)
  · cases hout : (if a.pareto_outcomes.isEmpty then a.rational_outcomes
        else a.pareto_outcomes) with
    | nil => exact Or.inl (by rw [hempty hout])
    | cons o0 rest =>
      cases hfind : (o0 :: rest).find?
          (fun o => decide ((match a.previous_offer with
            | some prev =>
              if opp.eval prev < opp.evalOpt st.current_offer then
                aspiration_function st.relative_time 1.0 0.0 a.e * 0.98
              else aspiration_function st.relative_time 1.0 0.0 a.e * 1.01
            | none => aspiration_function st.relative_time 1.0 0.0 a.e) ≤ u.eval o)) with
      | none =>
        exact Or.inl (by rw [(hmain o0 rest hout hend _ rfl).1 hfind])
      | some o =>
        have h := (hmain o0 rest hout hend _ rfl).2 o hfind
        rw [h]
        exact Or.inr rfl

/-- Claim C9: the engine is deterministic: two freshly initialized sessions
with the same parameters and utility functions, fed identical sequences of
round states, produce identical sequences of responses. -/
theorem run_replay_deterministic {Outcome : Type} (e : ℕ)
    (ufun opponent_ufun : Option (UFun Outcome)) (nmi : NMI Outcome)
    (a1 a2 : Agent Outcome)
    (h1 : fresh_session e ufun opponent_ufun nmi = .ok a1)
    (h2 : fresh_session e ufun opponent_ufun nmi = .ok a2)
    (sts1 sts2 : List (SAOState Outcome)) (hsts : sts1 = sts2) :
    run a1 sts1 = run a2 sts2 := by
  rw [h1] at h2
  injection h2 with h
  rw [h, hsts]

/-- A concrete mid-negotiation agent state: candidates `9, 8, 7, 6`,
relative time `0.9`, previous own offer `2`. -/
def aM : Agent ℕ := { Agent.init 5 (some uW) (some oW) nmiW with
  rational_outcomes := [9, 8, 7, 6], pareto_outcomes := [9, 8, 7, 6],
  relative_time := 0.9, previous_offer := some 2 }

/-- A concrete endgame agent state: candidates `9, 8, 7, 6`, relative time
`0.99`, opponent reserved-value estimate `0.25`. -/
def aE : Agent ℕ := { Agent.init 5 (some uW) (some oW) nmiW with
  rational_outcomes := [9, 8, 7, 6], pareto_outcomes := [9, 8, 7, 6],
  relative_time := 0.99, opponent_rv := 0.25 }

/-- The agent state produced by a fresh session over `uW`, `oW`, `nmiW`. -/
def aFresh : Agent ℕ := ⟨5, 1, [9], [9], 0, 0, none, some uW, some oW, nmiW⟩

/-- Witness for `bidding_strategy_mid_spec`: at relative time `0.9` with a
firm tit-for-tat adjustment the first qualifying candidate is `9`, and it
is recorded as the new previous own offer. -/
theorem bidding_strategy_mid_spec_witness :
    bidding_strategy uW oW aM ⟨some 3, 0.9, 4⟩ = (9, some 9) := by
  have h := (bidding_strategy_mid_spec uW oW aM ⟨some 3, 0.9, 4⟩
    (by norm_num [aM, Agent.init]) (by decide)).2 9 [8, 7, 6] (by decide)
    (((1.0 - 0) * (1 - (0.9 : ℚ) ^ 5) + 0) * 1.01)
    (by norm_num [aM, oW, UFun.evalOpt, Agent.init])
  exact h.2 9 (by with_unfolding_all decide)

/-- Witness for `bidding_strategy_endgame_spec`: in the concrete endgame
round the band is `[7]`, the returned offer lies in it, and
`previous_offer` is unchanged. -/
theorem bidding_strategy_endgame_spec_witness :
    (bidding_strategy uW oW aE ⟨some 3, 0.99, 8⟩).1 ∈ ([7] : List ℕ) ∧
    (bidding_strategy uW oW aE ⟨some 3, 0.99, 8⟩).2 = aE.previous_offer := by
  have h := bidding_strategy_endgame_spec uW oW aE ⟨some 3, 0.99, 8⟩ 9 [8, 7, 6]
    (by decide) (by with_unfolding_all decide) [7] (by with_unfolding_all decide)
  exact ⟨(h.2.1 (by decide)).1, h.2.2⟩

/-- Witness for `bidding_strategy_previous_offer_spec`: a concrete endgame
round leaves `previous_offer` unchanged. -/
theorem bidding_strategy_previous_offer_spec_witness :
    (bidding_strategy uW oW aE ⟨some 4, 0.99, 8⟩).2 = aE.previous_offer :=
  (bidding_strategy_previous_offer_spec uW oW aE ⟨some 4, 0.99, 8⟩).2.2.1
    (by with_unfolding_all decide)

/-- Witness for `run_replay_deterministic` on a concrete fresh session. -/
theorem run_replay_deterministic_witness :
    run aFresh [⟨some 2, 0.2, 0⟩] = run aFresh [⟨some 2, 0.2, 0⟩] :=
  run_replay_deterministic 5 (some uW) (some oW) nmiW aFresh aFresh
    (by with_unfolding_all rfl) (by with_unfolding_all rfl)
    [⟨some 2, 0.2, 0⟩] [⟨some 2, 0.2, 0⟩] rfl

end MyAgent
